import Mathlib

set_option maxRecDepth 8000

/-!
Verification of the retrieval pipeline of the RAG chatbot service (src/app.py),
shallowly embedded in Lean.  Strings are modelled as `List Char`; the vector
store (chromadb), the embedding model and the LLM are external services and are
modelled as explicit state (an association list of collections) and oracles.
-/

/-- Python whitespace class, as matched by the regex class backslash-s and by
str.strip, restricted to the ASCII whitespace characters. -/
def isPySpace (c : Char) : Bool :=
  c = ' ' || c = '\t' || c = '\n' || c = '\r' || c = '\x0b' || c = '\x0c'

/-- First stage of re.sub(backslash-s+, single space, text): replace every
whitespace character by a plain space. -/
def toSpace (c : Char) : Char := if isPySpace c then ' ' else c

/-- Second stage of the substitution: collapse runs of adjacent spaces to a
single space (after `toSpace`, every whitespace character is a space, so this
collapses every maximal whitespace run exactly as the regex substitution does). -/
def squeeze : List Char → List Char
  | a :: b :: rest => if a = ' ' ∧ b = ' ' then squeeze (b :: rest) else a :: squeeze (b :: rest)
  | l => l

/-- Drop the longest suffix of characters satisfying p (the right half of
python str.strip). -/
def dropTrailing (p : Char → Bool) : List Char → List Char
  | [] => []
  | a :: rest =>
    let r := dropTrailing p rest
    if r.isEmpty && p a then [] else a :: r

/-- Python str.strip(): remove leading and trailing whitespace. -/
def stripChars (l : List Char) : List Char := dropTrailing isPySpace (l.dropWhile isPySpace)

/-- The normalization performed at the top of chunk_text:
re.sub(backslash-s+, single space, text).strip(). -/
def normalizeWS (l : List Char) : List Char := stripChars (squeeze (l.map toSpace))

/-- The while loop of chunk_text, fuel-indexed because the source loop does not
terminate when overlap is at least chunk_size (start += chunk_size - overlap
never advances; we model start over Nat with truncated subtraction, which
likewise never advances in that configuration).  Returns none when the fuel is
exhausted before the loop exits.  Each iteration takes the window
text[start : start + chunk_size], and appends its stripped content when that is
non-blank. -/
def chunkLoopF : Nat → List Char → Nat → Nat → Nat → Option (List (List Char))
  | 0, _, _, _, _ => none
  | fuel + 1, text, chunk_size, overlap, start =>
    if start < text.length then
      let chunk := stripChars ((text.drop start).take chunk_size)
      match chunkLoopF fuel text chunk_size overlap (start + (chunk_size - overlap)) with
      | none => none
      | some rest => some (if chunk.isEmpty then rest else chunk :: rest)
    else
      some []

/-- chunk_text(text, chunk_size, overlap) from app.py.  The fuel L+1 is enough
for every terminating configuration (overlap < chunk_size advances start by at
least one per iteration); the result is none exactly when the source loop runs
forever. -/
def chunk_text (text : List Char) (chunk_size overlap : Nat) : Option (List (List Char)) :=
  let t := normalizeWS text
  chunkLoopF (t.length + 1) t chunk_size overlap 0

/-- Configured defaults: CHUNK_SIZE = 500. -/
def CHUNK_SIZE : Nat := 500

/-- Configured defaults: CHUNK_OVERLAP = 50. -/
def CHUNK_OVERLAP : Nat := 50

/-- Configured defaults: TOP_K = 5. -/
def TOP_K : Nat := 5

/-- The window of width chunk_size placed at offset k * step of t. -/
def win (t : List Char) (chunk_size step k : Nat) : List Char :=
  (t.drop (k * step)).take chunk_size

/-- What one loop iteration emits for the window at offset k * step:
the stripped window when non-blank, nothing otherwise. -/
def emitWin (t : List Char) (chunk_size step k : Nat) : Option (List Char) :=
  let c := stripChars (win t chunk_size step k)
  if c.isEmpty then none else some c

/-- Number of loop iterations on a text of length m with step size step:
the number of offsets k * step that are smaller than m, that is the ceiling of
m / step. -/
def ceilSteps (m step : Nat) : Nat := if m = 0 then 0 else (m - 1) / step + 1

/-- No two adjacent spaces occur in the list. -/
def noTwoSpaces : List Char → Bool
  | a :: b :: rest => !(a == ' ' && b == ' ') && noTwoSpaces (b :: rest)
  | _ => true

/-- One stored chunk of a chromadb collection, with the metadata attached by
index_pdf: bot_id, doc_id, chunk_index, source filename; content is the chunk
text (the id string bot_B_doc_D_chunk_I is determined by the metadata triple). -/
structure ChunkItem where
  botId : Nat
  docId : Nat
  chunkIndex : Nat
  content : List Char
  source : List Char
deriving DecidableEq

/-- A chromadb collection: the identity of the embedding function it was
created with, and its stored chunks (count() is items.length). -/
structure ChromaCollection where
  efId : Nat
  items : List ChunkItem
deriving DecidableEq

/-- The persistent chroma client state: collections keyed by bot id (the
collection named bot_B is the entry with key B; the naming is a bijection). -/
abbrev Store := List (Nat × ChromaCollection)

/-- Lookup of a collection by bot id (chroma get_collection by name). -/
def storeFind : Store → Nat → Option ChromaCollection
  | [], _ => none
  | (k, c) :: rest, botId => if k = botId then some c else storeFind rest botId

/-- Replace the stored collection under a key (mutation of a fetched
collection object is persisted in the client). -/
def storeSet (st : Store) (botId : Nat) (c : ChromaCollection) : Store :=
  st.map (fun p => if p.1 = botId then (botId, c) else p)

/-- The error classes of chroma_client.get_collection that
get_safe_collection distinguishes by substring matching on str(e):
an embedding function conflict / already-exists error, a does-not-exist /
not-found error, and anything else (re-raised). -/
inductive GetErr where
  | conflict
  | notFound
  | other (msg : List Char)
deriving DecidableEq

/-- chroma_client.get_collection(name=bot_B, embedding_function=ef): fails
when the collection is missing, or when it exists but was created with a
different embedding function. -/
def get_collection (st : Store) (botId efId : Nat) : Except GetErr ChromaCollection :=
  match storeFind st botId with
  | none => Except.error GetErr.notFound
  | some c => if c.efId = efId then Except.ok c else Except.error GetErr.conflict

/-- chroma_client.delete_collection(name=bot_B). -/
def delete_collection (st : Store) (botId : Nat) : Store :=
  st.filter (fun p => p.1 != botId)

/-- chroma_client.create_collection(name=bot_B, embedding_function=ef):
a fresh empty collection. -/
def create_collection (st : Store) (botId efId : Nat) : Store × ChromaCollection :=
  ((botId, ⟨efId, []⟩) :: st, ⟨efId, []⟩)

/-- RuntimeError raised by get_embedding_fn when the model failed to load. -/
def msgEmbedFail : List Char := "Embedding model failed to load".toList

/-- get_safe_collection(bot_id) from app.py.  emb is the lazily loaded
embedding function (none when loading failed, in which case get_embedding_fn
raises before chroma is consulted and the exception propagates, matching the
final raise e branch).  On a conflict the collection is deleted and recreated
empty; when absent it is created; unrecognised errors are re-raised. -/
def get_safe_collection (st : Store) (botId : Nat) (emb : Option Nat) :
    Except (List Char) (Store × ChromaCollection) :=
  match emb with
  | none => Except.error msgEmbedFail
  | some efId =>
    match get_collection st botId efId with
    | Except.ok c => Except.ok (st, c)
    | Except.error GetErr.conflict =>
        Except.ok (create_collection (delete_collection st botId) botId efId)
    | Except.error GetErr.notFound =>
        Except.ok (create_collection st botId efId)
    | Except.error (GetErr.other m) => Except.error m

/-- The delimiter joining retrieved documents in retrieve_context. -/
def sepDocs : List Char := "\n\n---\n\n".toList

/-- Events observable at the external-service boundary: a similarity query
issued with a given n_results, and a chat-completion (LLM) call. -/
inductive Ev where
  | query (n : Nat)
  | llmCall
deriving DecidableEq

/-- retrieve_context(collection, query, top_k) from app.py.  count is
collection.count(); oracle models collection.query (the similarity search is
an external service: given the query text and n_results it may return a list
of documents or raise).  Returns the context string together with the trace
of issued queries.  With an empty collection it returns the empty string
without querying. -/
def retrieve_context (count : Nat)
    (oracle : List Char → Nat → Except (List Char) (List (List Char)))
    (query : List Char) (top_k : Nat) :
    Except (List Char) (List Char) × List Ev :=
  if count = 0 then (Except.ok [], [])
  else
    match oracle query (min top_k count) with
    | Except.error e => (Except.error e, [Ev.query (min top_k count)])
    | Except.ok docs =>
        (Except.ok (if docs.isEmpty then [] else List.intercalate sepDocs docs),
         [Ev.query (min top_k count)])

/-- Detail of the 400 raised by widget_chat on missing inputs. -/
def msgProvideBoth : List Char := "Please provide both a bot_id and a message.".toList

/-- Detail of the 404 raised when get_safe_collection raises. -/
def msgBotNotFound : List Char := "Bot not found or has no documents.".toList

/-- The apostrophe character (written via its code point). -/
def apos : Char := Char.ofNat 39

/-- The fixed answer produced without any LLM call when the retrieved context
is empty. -/
def msgNoInfo : List Char :=
  "I couldn".toList ++ [apos] ++ "t find any relevant information in the document.".toList

/-- The generic 500 detail of widget_chat; internal exception text never
reaches the caller. -/
def msgServerErr : List Char :=
  "Sorry, an error occurred on the server. Please check the logs.".toList

/-- Outcome of an HTTP handler: a JSON 200 body or an HTTPException. -/
inductive ChatOut where
  | ok (response : List Char)
  | httpError (status : Nat) (detail : List Char)
deriving DecidableEq

/-- widget_chat (POST /api/widget/chat) from app.py.  llm models ask_llm
(context and question to answer, or an exception).  The returned triple is the
HTTP outcome, the trace of external calls, and the resulting chroma state.
The ChatLog database write is omitted (it only appends a log row; its failure
would surface through the same generic 500 branch as an llm failure). -/
def widget_chat (st : Store) (emb : Option Nat) (botId : Nat) (message : List Char)
    (oracle : List Char → Nat → Except (List Char) (List (List Char)))
    (llm : List Char → List Char → Except (List Char) (List Char)) :
    ChatOut × List Ev × Store :=
  if botId = 0 || (stripChars message).isEmpty then
    (ChatOut.httpError 400 msgProvideBoth, [], st)
  else
    match get_safe_collection st botId emb with
    | Except.error _ => (ChatOut.httpError 404 msgBotNotFound, [], st)
    | Except.ok (st1, col) =>
      match retrieve_context col.items.length oracle (stripChars message) TOP_K with
      | (Except.error _, evs) => (ChatOut.httpError 500 msgServerErr, evs, st1)
      | (Except.ok context, evs) =>
        if context.isEmpty then (ChatOut.ok msgNoInfo, evs, st1)
        else
          match llm context (stripChars message) with
          | Except.error _ => (ChatOut.httpError 500 msgServerErr, evs ++ [Ev.llmCall], st1)
          | Except.ok answer => (ChatOut.ok answer, evs ++ [Ev.llmCall], st1)

/-- A persisted documents row (models.Document): id, owning bot, stored
filename, original upload name, chunk_count. -/
structure DocRec where
  id : Nat
  botId : Nat
  filename : List Char
  originalName : List Char
  chunkCount : Nat
deriving DecidableEq

/-- collection.delete(where = doc_id filter): removes exactly the chunks whose
metadata doc_id equals the given id. -/
def collection_delete_where (c : ChromaCollection) (docId : Nat) : ChromaCollection :=
  ⟨c.efId, c.items.filter (fun it => it.docId != docId)⟩

/-- delete_document (POST /dashboard/bots/B/documents/D/delete) from app.py,
for an authenticated owner.  db is the documents table, fs the set of stored
upload files, st the chroma state.  none models the 404 when the document row
is missing, and the propagated exception when get_safe_collection raises. -/
def delete_document (db : List DocRec) (fs : List (List Char)) (st : Store)
    (botId docId : Nat) (emb : Option Nat) :
    Option (List DocRec × List (List Char) × Store) :=
  match db.find? (fun d => d.id == docId && d.botId == botId) with
  | none => none
  | some doc =>
    match get_safe_collection st botId emb with
    | Except.error _ => none
    | Except.ok (st1, col) =>
      let col2 := collection_delete_where col docId
      let st2 := storeSet st1 botId col2
      some (db.filter (fun d => d.id != docId),
            fs.filter (fun f => f != doc.filename),
            st2)

/-- allowed_file(filename) from app.py: a dot occurs, and the lowercased part
after the last dot is the extension pdf. -/
def allowed_file (l : List Char) : Bool :=
  l.contains '.' && (l.reverse.takeWhile (fun c => c != '.')).reverse.map Char.toLower == "pdf".toList

/-- chunk_text with the configured defaults; total because
CHUNK_OVERLAP < CHUNK_SIZE (the default value never returns none, see
chunk_text_default_some). -/
def chunk_textD (text : List Char) : List (List Char) :=
  (chunk_text text CHUNK_SIZE CHUNK_OVERLAP).getD []

/-- index_pdf(bot_id, doc_id, filename, pdf_path) from app.py, with the
extracted pdf text passed directly (PyPDF2 is an external library).  Gets or
creates the collection, chunks the text, and adds one item per chunk with
metadata (bot_id, doc_id, chunk_index, source filename); when there are no
chunks the collection is returned unchanged. -/
def index_pdf (st : Store) (botId docId : Nat) (filename text : List Char)
    (emb : Option Nat) : Except (List Char) Store :=
  match get_safe_collection st botId emb with
  | Except.error e => Except.error e
  | Except.ok (st1, col) =>
    let chunks := chunk_textD text
    if chunks.isEmpty then Except.ok st1
    else
      let items := chunks.enum.map (fun p =>
        { botId := botId, docId := docId, chunkIndex := p.1,
          content := p.2, source := filename : ChunkItem })
      Except.ok (storeSet st1 botId ⟨col.efId, col.items ++ items⟩)

/-- Characters kept by the upload sanitizer regex (word characters, dash and
dot); everything else becomes an underscore. -/
def sanitizeChar (c : Char) : Char :=
  if c.isAlphanum || c = '_' || c = '-' || c = '.' then c else '_'

/-- The stored filename uuidhex_sanitizedname built by upload_bot_pdf. -/
def storedName (uuidHex : List Char) (original : List Char) : List Char :=
  uuidHex ++ '_' :: original.map sanitizeChar

/-- str(HTTPException(code, detail)), the text starlette produces and which the
blanket except clause of upload_bot_pdf stuffs into its 500 detail. -/
def strHTTPExc (code : Nat) (detail : List Char) : List Char :=
  (Nat.repr code).toList ++ ": ".toList ++ detail

/-- Detail of the 404 raised (and then rewrapped) when the bot is missing. -/
def msgUploadBotNotFound : List Char := "Bot not found".toList

/-- Detail of the 400 raised (and then rewrapped) on an empty filename. -/
def msgNoFile : List Char := "No selected file".toList

/-- Detail of the 400 raised (and then rewrapped) on a non-pdf extension. -/
def msgInvalidType : List Char := "Invalid file type. Only PDF files are allowed.".toList

/-- Outcome of the upload handler: the 303 redirect to the bot page, or an
HTTPException. -/
inductive UploadOut where
  | redirect (botId : Nat)
  | httpError (status : Nat) (detail : List Char)
deriving DecidableEq

/-- upload_bot_pdf (POST /dashboard/bots/B/upload) from app.py, for an
authenticated owner.  The whole body runs inside a blanket
try/except-Exception that re-raises every failure, the handler's own
HTTPExceptions included, as HTTPException(500, str(e)); so the intended 404
and 400 rejections surface as 500 with the stringified original exception as
detail.  text is the extracted pdf text, uuidHex the generated uuid4 hex.
On the success path a Document row with chunk_count 0 is committed, the text
is indexed, and the handler returns the redirect (the chunk count is never
returned nor written back). -/
def upload_bot_pdf (db : List DocRec) (st : Store) (botExists : Bool) (botId : Nat)
    (origName : List Char) (text : List Char) (emb : Option Nat)
    (newDocId : Nat) (uuidHex : List Char) : UploadOut × List DocRec × Store :=
  if botExists = false then
    (UploadOut.httpError 500 (strHTTPExc 404 msgUploadBotNotFound), db, st)
  else if origName.isEmpty then
    (UploadOut.httpError 500 (strHTTPExc 400 msgNoFile), db, st)
  else if allowed_file origName = false then
    (UploadOut.httpError 500 (strHTTPExc 400 msgInvalidType), db, st)
  else
    let doc : DocRec := ⟨newDocId, botId, storedName uuidHex origName, origName, 0⟩
    match index_pdf st botId newDocId origName text emb with
    | Except.error e => (UploadOut.httpError 500 e, db ++ [doc], st)
    | Except.ok st1 => (UploadOut.redirect botId, db ++ [doc], st1)

/-! Helper lemmas about the chunking loop. -/

lemma ceilSteps_rec (m step : Nat) (hstep : 0 < step) (hm : 0 < m) :
    ceilSteps m step = ceilSteps (m - step) step + 1 := by
  unfold ceilSteps
  rw [if_neg (by omega)]
  by_cases hms : m - step = 0
  · rw [if_pos hms]
    have h2 : (m - 1) / step = 0 := Nat.div_eq_of_lt (by omega)
    omega
  · rw [if_neg hms]
    have h2 : m - 1 = (m - step - 1) + step := by omega
    rw [h2, Nat.add_div_right _ hstep]

lemma emitWin_succ (t : List Char) (cs step start k : Nat) :
    emitWin (t.drop start) cs step (k + 1) = emitWin (t.drop (start + step)) cs step k := by
  unfold emitWin win
  rw [List.drop_drop, List.drop_drop]
  have h : start + (k + 1) * step = start + step + k * step := by ring
  rw [h]

lemma chunkLoopF_eq (cs ov : Nat) (h : ov < cs) :
    ∀ (fuel : Nat) (t : List Char) (start : Nat), t.length - start < fuel →
      chunkLoopF fuel t cs ov start =
        some ((List.range (ceilSteps (t.length - start) (cs - ov))).filterMap
          (emitWin (t.drop start) cs (cs - ov))) := by
  intro fuel
  induction fuel with
  | zero => intro t start hf; omega
  | succ fuel ih =>
    intro t start hf
    by_cases hs : start < t.length
    · have hstep : 0 < cs - ov := by omega
      have hm : 0 < t.length - start := by omega
      rw [chunkLoopF, if_pos hs, ih t (start + (cs - ov)) (by omega)]
      rw [ceilSteps_rec _ _ hstep hm]
      have hsub : t.length - start - (cs - ov) = t.length - (start + (cs - ov)) := by omega
      rw [hsub, List.range_succ_eq_map, List.filterMap_cons, List.filterMap_map]
      have hcomp : (emitWin (t.drop start) cs (cs - ov)) ∘ Nat.succ
          = emitWin (t.drop (start + (cs - ov))) cs (cs - ov) := by
        funext k
        exact emitWin_succ t cs (cs - ov) start k
      rw [hcomp]
      have hwin : win (t.drop start) cs (cs - ov) 0 = (t.drop start).take cs := by
        unfold win
        rw [Nat.zero_mul, List.drop_zero]
      rw [emitWin, hwin]
      by_cases hc : (stripChars ((t.drop start).take cs)).isEmpty
      · simp [hc]
      · simp [hc]
    · rw [chunkLoopF, if_neg hs]
      have hz : t.length - start = 0 := by omega
      rw [hz]
      simp [ceilSteps]

lemma chunk_text_eq (text : List Char) (cs ov : Nat) (h : ov < cs) :
    chunk_text text cs ov =
      some ((List.range (ceilSteps (normalizeWS text).length (cs - ov))).filterMap
        (emitWin (normalizeWS text) cs (cs - ov))) := by
  unfold chunk_text
  have hx := chunkLoopF_eq cs ov h ((normalizeWS text).length + 1) (normalizeWS text) 0
    (by omega)
  simpa using hx

lemma flatten_windows (t : List Char) (cs step : Nat) (hsc : step ≤ cs) :
    ∀ n, ((List.range n).map (fun k => (win t cs step k).take step)).flatten
      = t.take (n * step) := by
  intro n
  induction n with
  | zero => simp
  | succ n ih =>
    rw [List.range_succ, List.map_append, List.flatten_append, ih]
    simp only [List.map_cons, List.map_nil, List.flatten_cons, List.flatten_nil,
      List.append_nil]
    unfold win
    rw [List.take_take, Nat.min_eq_left hsc, Nat.succ_mul, List.take_add]

lemma ceilSteps_mul_ge (m step : Nat) (hstep : 0 < step) : m ≤ ceilSteps m step * step := by
  unfold ceilSteps
  by_cases hm : m = 0
  · simp [hm]
  · rw [if_neg hm]
    have h1 := Nat.div_add_mod (m - 1) step
    have h2 : (m - 1) % step < step := Nat.mod_lt _ hstep
    have h3 : ((m - 1) / step + 1) * step = step * ((m - 1) / step) + step := by ring
    rw [h3]
    generalize hq : (m - 1) / step = q at h1 ⊢
    generalize hr : (m - 1) % step = r at h1 h2
    generalize hx : step * q = x at h1 ⊢
    omega

/-! Structural lemmas about stripping and normalization. -/

lemma dropWhile_eq_drop_ex (p : Char → Bool) (l : List Char) :
    ∃ n, l.dropWhile p = l.drop n := by
  induction l with
  | nil => exact ⟨0, rfl⟩
  | cons a rest ih =>
    by_cases hp : p a
    · obtain ⟨n, hn⟩ := ih
      exact ⟨n + 1, by simp [List.dropWhile_cons, hp, hn]⟩
    · exact ⟨0, by simp [List.dropWhile_cons, hp]⟩

lemma dropTrailing_eq_take_ex (p : Char → Bool) (l : List Char) :
    ∃ n, dropTrailing p l = l.take n := by
  induction l with
  | nil => exact ⟨0, rfl⟩
  | cons a rest ih =>
    obtain ⟨n, hn⟩ := ih
    by_cases hc : (dropTrailing p rest).isEmpty && p a
    · exact ⟨0, by simp [dropTrailing, hc]⟩
    · refine ⟨n + 1, ?_⟩
      show (if (dropTrailing p rest).isEmpty && p a then [] else a :: dropTrailing p rest)
        = (a :: rest).take (n + 1)
      rw [if_neg hc, hn, List.take_succ_cons]

lemma stripChars_eq_drop_take (l : List Char) :
    ∃ m n, stripChars l = (l.drop m).take n := by
  obtain ⟨m, hm⟩ := dropWhile_eq_drop_ex isPySpace l
  obtain ⟨n, hn⟩ := dropTrailing_eq_take_ex isPySpace (l.dropWhile isPySpace)
  exact ⟨m, n, by rw [stripChars, hn, hm]⟩

lemma stripChars_subset (l : List Char) : ∀ c ∈ stripChars l, c ∈ l := by
  intro c hc
  obtain ⟨m, n, hmn⟩ := stripChars_eq_drop_take l
  rw [hmn] at hc
  exact List.drop_subset m l (List.take_subset n _ hc)

lemma stripChars_length_le (l : List Char) : (stripChars l).length ≤ l.length := by
  obtain ⟨m, n, hmn⟩ := stripChars_eq_drop_take l
  rw [hmn]
  calc ((l.drop m).take n).length ≤ (l.drop m).length := by
        rw [List.length_take]; omega
    _ ≤ l.length := by rw [List.length_drop]; omega

lemma dropWhile_head_not (p : Char → Bool) (l : List Char) (c : Char) (rest : List Char)
    (h : l.dropWhile p = c :: rest) : p c = false := by
  induction l with
  | nil => simp at h
  | cons a t ih =>
    by_cases hp : p a
    · rw [List.dropWhile_cons, if_pos hp] at h
      exact ih h
    · rw [List.dropWhile_cons, if_neg hp] at h
      cases h
      exact Bool.eq_false_iff.mpr hp

lemma dropTrailing_getLast_not (p : Char → Bool) (l : List Char) (c : Char)
    (h : (dropTrailing p l).getLast? = some c) : p c = false := by
  induction l with
  | nil => simp [dropTrailing] at h
  | cons a rest ih =>
    by_cases hc : (dropTrailing p rest).isEmpty && p a
    · simp [dropTrailing, hc] at h
    · rw [dropTrailing] at h
      simp only [hc, if_false, Bool.false_eq_true] at h
      cases hr : dropTrailing p rest with
      | nil =>
        rw [hr] at h hc
        simp at h hc
        cases h
        exact hc
      | cons b r2 =>
        rw [hr] at h
        rw [List.getLast?_cons_cons] at h
        rw [hr] at ih
        exact ih h

lemma take_head_eq (v : List Char) (n : Nat) (h : v.take n ≠ []) :
    (v.take n).head? = v.head? := by
  cases v with
  | nil => simp at h
  | cons a t =>
    cases n with
    | zero => simp at h
    | succ n => simp [List.take_succ_cons]

lemma stripChars_head_not (l : List Char) (c : Char) (rest : List Char)
    (h : stripChars l = c :: rest) : isPySpace c = false := by
  obtain ⟨n, hn⟩ := dropTrailing_eq_take_ex isPySpace (l.dropWhile isPySpace)
  rw [stripChars, hn] at h
  have hne : (l.dropWhile isPySpace).take n ≠ [] := by rw [h]; exact List.cons_ne_nil _ _
  have hh := take_head_eq (l.dropWhile isPySpace) n hne
  rw [h] at hh
  cases hd : l.dropWhile isPySpace with
  | nil => rw [hd] at hh; simp at hh
  | cons b r2 =>
    rw [hd] at hh
    simp only [List.head?_cons, Option.some.injEq] at hh
    rw [hh]
    exact dropWhile_head_not isPySpace l b r2 hd

lemma stripChars_getLast_not (l : List Char) (c : Char)
    (h : (stripChars l).getLast? = some c) : isPySpace c = false :=
  dropTrailing_getLast_not isPySpace (l.dropWhile isPySpace) c h

lemma noTwoSpaces_cons_cons (a b : Char) (r : List Char) :
    noTwoSpaces (a :: b :: r) = (!(a == ' ' && b == ' ') && noTwoSpaces (b :: r)) := rfl

lemma noTwoSpaces_tail (a : Char) (l : List Char)
    (h : noTwoSpaces (a :: l) = true) : noTwoSpaces l = true := by
  cases l with
  | nil => rfl
  | cons b r =>
    rw [noTwoSpaces_cons_cons, Bool.and_eq_true] at h
    exact h.2

lemma noTwoSpaces_drop (l : List Char) (n : Nat)
    (h : noTwoSpaces l = true) : noTwoSpaces (l.drop n) = true := by
  induction n generalizing l with
  | zero => simpa using h
  | succ n ih =>
    cases l with
    | nil => rfl
    | cons a t =>
      rw [List.drop_succ_cons]
      exact ih t (noTwoSpaces_tail a t h)

lemma noTwoSpaces_take (l : List Char) (n : Nat)
    (h : noTwoSpaces l = true) : noTwoSpaces (l.take n) = true := by
  induction l generalizing n with
  | nil => simp [noTwoSpaces]
  | cons a rest ih =>
    cases n with
    | zero => rfl
    | succ n =>
      rw [List.take_succ_cons]
      cases rest with
      | nil => rw [List.take_nil]; exact h
      | cons b r2 =>
        cases n with
        | zero => rfl
        | succ n =>
          rw [List.take_succ_cons, noTwoSpaces_cons_cons, Bool.and_eq_true]
          rw [noTwoSpaces_cons_cons, Bool.and_eq_true] at h
          refine ⟨h.1, ?_⟩
          rw [← List.take_succ_cons]
          exact ih (n + 1) h.2

lemma noTwoSpaces_stripChars (l : List Char)
    (h : noTwoSpaces l = true) : noTwoSpaces (stripChars l) = true := by
  obtain ⟨m, n, hmn⟩ := stripChars_eq_drop_take l
  rw [hmn]
  exact noTwoSpaces_take _ n (noTwoSpaces_drop l m h)

lemma squeeze_subset (l : List Char) : ∀ c ∈ squeeze l, c ∈ l := by
  induction l with
  | nil => intro c hc; simp [squeeze] at hc
  | cons a rest ih =>
    cases rest with
    | nil => intro c hc; simpa [squeeze] using hc
    | cons b r2 =>
      intro c hc
      rw [squeeze] at hc
      by_cases hab : a = ' ' ∧ b = ' '
      · rw [if_pos hab] at hc
        exact List.mem_cons_of_mem a (ih c hc)
      · rw [if_neg hab] at hc
        rcases List.mem_cons.mp hc with h1 | h2
        · exact h1 ▸ List.mem_cons_self a _
        · exact List.mem_cons_of_mem a (ih c h2)

lemma squeeze_single (a : Char) : squeeze [a] = [a] := rfl

lemma squeeze_head_space (b : Char) (rest : List Char) (c : Char)
    (h : (squeeze (b :: rest)).head? = some c) (hc : c = ' ') : b = ' ' := by
  induction rest generalizing b with
  | nil =>
    rw [squeeze_single] at h
    simp only [List.head?_cons] at h
    cases h
    exact hc
  | cons d r2 ih =>
    rw [squeeze] at h
    by_cases hbd : b = ' ' ∧ d = ' '
    · exact hbd.1
    · rw [if_neg hbd] at h
      simp only [List.head?_cons] at h
      cases h
      exact hc

lemma squeeze_noTwo (l : List Char) : noTwoSpaces (squeeze l) = true := by
  induction l with
  | nil => rfl
  | cons a rest ih =>
    cases rest with
    | nil => rfl
    | cons b r2 =>
      rw [squeeze]
      by_cases hab : a = ' ' ∧ b = ' '
      · rw [if_pos hab]
        exact ih
      · rw [if_neg hab]
        cases hq : squeeze (b :: r2) with
        | nil => rfl
        | cons e r3 =>
          rw [noTwoSpaces_cons_cons, Bool.and_eq_true]
          constructor
          · by_cases hae : a = ' ' ∧ e = ' '
            · exfalso
              have hb := squeeze_head_space b r2 e (by rw [hq]; rfl) hae.2
              exact hab ⟨hae.1, hb⟩
            · rcases Decidable.not_and_iff_or_not.mp hae with hx | hx
              · simp [hx]
              · simp [hx]
          · rw [← hq]
            exact ih

lemma norm_space_is_space (t : List Char) :
    ∀ c ∈ normalizeWS t, isPySpace c = true → c = ' ' := by
  intro c hc hsp
  have h1 : c ∈ squeeze (t.map toSpace) := stripChars_subset _ c hc
  have h2 : c ∈ t.map toSpace := squeeze_subset _ c h1
  obtain ⟨x, _, hx⟩ := List.mem_map.mp h2
  by_cases hxs : isPySpace x
  · rw [← hx, toSpace, if_pos hxs]
  · rw [← hx] at hsp
    rw [toSpace, if_neg hxs] at hsp
    exact absurd hsp hxs

lemma norm_noTwo (t : List Char) : noTwoSpaces (normalizeWS t) = true :=
  noTwoSpaces_stripChars _ (squeeze_noTwo (t.map toSpace))

lemma stripChars_no_space_id (l : List Char)
    (h : ∀ c ∈ l, isPySpace c = false) : stripChars l = l := by
  have hdw : l.dropWhile isPySpace = l := by
    cases l with
    | nil => rfl
    | cons a rest =>
      rw [List.dropWhile_cons, if_neg (by simp [h a (List.mem_cons_self a rest)])]
  rw [stripChars, hdw]
  clear hdw
  induction l with
  | nil => rfl
  | cons a rest ih =>
    have hr : dropTrailing isPySpace rest = rest :=
      ih (fun c hc => h c (List.mem_cons_of_mem a hc))
    show (if (dropTrailing isPySpace rest).isEmpty && isPySpace a
        then [] else a :: dropTrailing isPySpace rest) = a :: rest
    rw [hr]
    rcases rest with _ | ⟨b, r2⟩
    · rw [if_neg (by simp [h a (List.mem_cons_self a [])])]
    · rw [if_neg (by simp)]

/-! Claim theorems about the chunker. -/

/-- Claim C1, corrected.  For overlap < chunk_size, chunk_text emits the
trimmed non-blank windows taken at offsets 0, s-o, 2(s-o), ... of the
normalized text; the loop iterates ceil(L/(s-o)) windows (not
ceil(max(L-o,0)/(s-o)) as claimed), and the windows, each truncated to its
first s-o characters (accounting for the o-character overlap between
consecutive windows), concatenate back to the normalized text. -/
theorem chunk_text_closed_form (text : List Char) (cs ov : Nat) (h : ov < cs) :
    chunk_text text cs ov =
      some ((List.range (ceilSteps (normalizeWS text).length (cs - ov))).filterMap
        (emitWin (normalizeWS text) cs (cs - ov)))
    ∧ ((List.range (ceilSteps (normalizeWS text).length (cs - ov))).map
        (fun k => (win (normalizeWS text) cs (cs - ov) k).take (cs - ov))).flatten
      = normalizeWS text := by
  refine ⟨chunk_text_eq text cs ov h, ?_⟩
  rw [flatten_windows _ _ _ (Nat.sub_le cs ov)]
  exact List.take_of_length_le (ceilSteps_mul_ge _ _ (by omega))

/-- Counterexample to claim C1 as stated: for the two-character text aa with
chunk_size 2 and overlap 1 the code produces 2 chunks (offsets 0 and 1), while
the claimed count ceil(max(L-o,0)/(s-o)) evaluates to 1. -/
theorem chunk_count_formula_cex :
    ((chunk_text ['a', 'a'] 2 1).getD []).length = 2
    ∧ (max (2 - 1) 0 + (2 - 1) - 1) / (2 - 1) = 1 := by
  constructor
  · decide
  · decide

/-- Witness for chunk_text_closed_form at a concrete input. -/
theorem chunk_text_closed_form_witness :
    (1 : Nat) < 3
    ∧ (chunk_text [' ', 'a', 'b', ' ', 'c'] 3 1 =
        some ((List.range (ceilSteps (normalizeWS [' ', 'a', 'b', ' ', 'c']).length (3 - 1))).filterMap
          (emitWin (normalizeWS [' ', 'a', 'b', ' ', 'c']) 3 (3 - 1)))
      ∧ ((List.range (ceilSteps (normalizeWS [' ', 'a', 'b', ' ', 'c']).length (3 - 1))).map
          (fun k => (win (normalizeWS [' ', 'a', 'b', ' ', 'c']) 3 (3 - 1) k).take (3 - 1))).flatten
        = normalizeWS [' ', 'a', 'b', ' ', 'c']) :=
  ⟨by decide, chunk_text_closed_form [' ', 'a', 'b', ' ', 'c'] 3 1 (by decide)⟩

/-- Claim C3, the code is wrong: with overlap equal to (or exceeding)
chunk_size and a non-blank text, chunk_text never rejects the configuration;
its while loop never advances and never terminates.  In the model the loop
returns none for every fuel bound, and chunk_text diverges (none). -/
theorem chunk_loop_diverges (t : List Char) (cs ov : Nat) (h : cs ≤ ov)
    (hne : normalizeWS t ≠ []) :
    (∀ fuel, chunkLoopF fuel (normalizeWS t) cs ov 0 = none)
    ∧ chunk_text t cs ov = none := by
  have hstep : cs - ov = 0 := by omega
  have hlen : 0 < (normalizeWS t).length := List.length_pos.mpr hne
  have hall : ∀ fuel, chunkLoopF fuel (normalizeWS t) cs ov 0 = none := by
    intro fuel
    induction fuel with
    | zero => rfl
    | succ fuel ih =>
      rw [chunkLoopF, if_pos hlen]
      simp [hstep, ih]
  exact ⟨hall, hall _⟩

/-- Witness for chunk_loop_diverges: the loop for text ab with chunk_size 2
and overlap 2 is still running after 1000 iterations, and chunk_text reports
divergence. -/
theorem chunk_loop_diverges_witness :
    chunkLoopF 1000 (normalizeWS ['a', 'b']) 2 2 0 = none
    ∧ chunk_text ['a', 'b'] 2 2 = none :=
  ⟨(chunk_loop_diverges ['a', 'b'] 2 2 (by decide) (by decide)).1 1000,
   (chunk_loop_diverges ['a', 'b'] 2 2 (by decide) (by decide)).2⟩

/-- Claim C10, confirmed: for overlap < chunk_size every chunk returned by
chunk_text is non-empty, has no leading or trailing whitespace, contains no
whitespace other than single interior spaces, and is at most chunk_size long. -/
theorem chunk_invariants (text : List Char) (cs ov : Nat) (h : ov < cs) :
    ∀ chunk ∈ (chunk_text text cs ov).getD [],
      chunk ≠ []
      ∧ chunk.length ≤ cs
      ∧ (∀ c, chunk.head? = some c → isPySpace c = false)
      ∧ (∀ c, chunk.getLast? = some c → isPySpace c = false)
      ∧ (∀ c ∈ chunk, isPySpace c = true → c = ' ')
      ∧ noTwoSpaces chunk = true := by
  intro chunk hc
  rw [chunk_text_eq text cs ov h] at hc
  simp only [Option.getD_some] at hc
  obtain ⟨k, _, hek⟩ := List.mem_filterMap.mp hc
  simp only [emitWin] at hek
  by_cases he : (stripChars (win (normalizeWS text) cs (cs - ov) k)).isEmpty
  · simp [he] at hek
  · simp only [he, if_false, Bool.false_eq_true, Option.some.injEq] at hek
    have hwsub : ∀ c ∈ win (normalizeWS text) cs (cs - ov) k, c ∈ normalizeWS text := by
      intro c hcm
      exact List.drop_subset _ _ (List.take_subset _ _ hcm)
    have hwnoTwo : noTwoSpaces (win (normalizeWS text) cs (cs - ov) k) = true :=
      noTwoSpaces_take _ _ (noTwoSpaces_drop _ _ (norm_noTwo text))
    refine ⟨?_, ?_, ?_, ?_, ?_, ?_⟩
    · intro hnil
      rw [hek, hnil] at he
      exact he rfl
    · rw [← hek]
      calc (stripChars (win (normalizeWS text) cs (cs - ov) k)).length
          ≤ (win (normalizeWS text) cs (cs - ov) k).length := stripChars_length_le _
        _ ≤ cs := by rw [win, List.length_take]; omega
    · intro c hhead
      cases hch : chunk with
      | nil => rw [hch] at hhead; simp at hhead
      | cons c0 r =>
        rw [hch] at hhead
        simp only [List.head?_cons, Option.some.injEq] at hhead
        rw [← hhead]
        rw [hch] at hek
        exact stripChars_head_not _ c0 r hek
    · intro c hlast
      rw [← hek] at hlast
      exact stripChars_getLast_not _ c hlast
    · intro c hcm hsp
      rw [← hek] at hcm
      exact norm_space_is_space text c (hwsub c (stripChars_subset _ c hcm)) hsp
    · rw [← hek]
      exact noTwoSpaces_stripChars _ hwnoTwo

/-- Witness for chunk_invariants: the first chunk of chunking ab cd with
chunk_size 3 and overlap 1 satisfies the binder-free invariants. -/
theorem chunk_invariants_witness :
    ['a', 'b'] ≠ ([] : List Char)
    ∧ (['a', 'b'] : List Char).length ≤ 3
    ∧ noTwoSpaces ['a', 'b'] = true := by
  have hinv := chunk_invariants ['a', 'b', ' ', 'c', 'd'] 3 1 (by decide) ['a', 'b'] (by decide)
  exact ⟨hinv.1, hinv.2.1, hinv.2.2.2.2.2⟩

/-! Lemmas for whitespace-free texts, and the 1200-character scenario. -/

lemma map_toSpace_no_space_id (l : List Char)
    (h : ∀ c ∈ l, isPySpace c = false) : l.map toSpace = l := by
  induction l with
  | nil => rfl
  | cons a rest ih =>
    rw [List.map_cons, toSpace, if_neg (by simp [h a (List.mem_cons_self a rest)]),
      ih (fun c hc => h c (List.mem_cons_of_mem a hc))]

lemma squeeze_no_space_id (l : List Char)
    (h : ∀ c ∈ l, c ≠ ' ') : squeeze l = l := by
  induction l with
  | nil => rfl
  | cons a rest ih =>
    cases rest with
    | nil => rfl
    | cons b r2 =>
      rw [squeeze, if_neg (fun hab => h a (List.mem_cons_self a _) hab.1)]
      rw [ih (fun c hc => h c (List.mem_cons_of_mem a hc))]

lemma normalizeWS_no_space_id (l : List Char)
    (h : ∀ c ∈ l, isPySpace c = false) : normalizeWS l = l := by
  rw [normalizeWS, map_toSpace_no_space_id l h]
  rw [squeeze_no_space_id l (fun c hc hsp => by
    have := h c hc
    rw [hsp] at this
    simp [isPySpace] at this)]
  exact stripChars_no_space_id l h

lemma win_length (t : List Char) (cs step k : Nat) :
    (win t cs step k).length = min cs (t.length - k * step) := by
  rw [win, List.length_take, List.length_drop]

lemma emitWin_no_space (t : List Char) (cs step k : Nat)
    (hns : ∀ c ∈ t, isPySpace c = false)
    (hne : (win t cs step k).length ≠ 0) :
    emitWin t cs step k = some (win t cs step k) := by
  have hsub : ∀ c ∈ win t cs step k, isPySpace c = false := fun c hc =>
    hns c (List.drop_subset _ _ (List.take_subset _ _ hc))
  simp only [emitWin]
  rw [stripChars_no_space_id _ hsub]
  rw [if_neg (fun hemp => hne (by rw [List.isEmpty_iff.mp hemp]; rfl))]

lemma chunk_1200_aux (t : List Char)
    (hlen : (normalizeWS t).length = 1200)
    (hns : ∀ c ∈ normalizeWS t, isPySpace c = false) :
    chunk_text t 500 50 =
      some [win (normalizeWS t) 500 450 0, win (normalizeWS t) 500 450 1,
            win (normalizeWS t) 500 450 2]
    ∧ (win (normalizeWS t) 500 450 0).length = 500
    ∧ (win (normalizeWS t) 500 450 1).length = 500
    ∧ (win (normalizeWS t) 500 450 2).length = 300 := by
  have hl0 : (win (normalizeWS t) 500 450 0).length = 500 := by
    rw [win_length, hlen]; omega
  have hl1 : (win (normalizeWS t) 500 450 1).length = 500 := by
    rw [win_length, hlen]; omega
  have hl2 : (win (normalizeWS t) 500 450 2).length = 300 := by
    rw [win_length, hlen]; omega
  refine ⟨?_, hl0, hl1, hl2⟩
  have h1 : (50 : Nat) < 500 := by norm_num
  rw [chunk_text_eq t 500 50 h1]
  have hstep : (500 : Nat) - 50 = 450 := by norm_num
  rw [hstep, hlen]
  have hcs : ceilSteps 1200 450 = 3 := by norm_num [ceilSteps]
  rw [hcs]
  have hr3 : List.range 3 = [0, 1, 2] := by rfl
  rw [hr3]
  simp only [List.filterMap_cons, List.filterMap_nil,
    emitWin_no_space (normalizeWS t) 500 450 0 hns (by omega),
    emitWin_no_space (normalizeWS t) 500 450 1 hns (by omega),
    emitWin_no_space (normalizeWS t) 500 450 2 hns (by omega)]

/-- Claim C2, corrected.  For an input whose normalized text is 1200
whitespace-free characters, chunking with chunk_size 500 and overlap 50
produces exactly 3 chunks, the windows at offsets 0, 450 and 900 of the
normalized text, with lengths 500, 500 and 300 (not 250: the final window
covers the remaining 300 characters). -/
theorem chunk_1200_spec (t : List Char)
    (hlen : (normalizeWS t).length = 1200)
    (hns : ∀ c ∈ normalizeWS t, isPySpace c = false) :
    chunk_text t 500 50 =
      some [win (normalizeWS t) 500 450 0, win (normalizeWS t) 500 450 1,
            win (normalizeWS t) 500 450 2]
    ∧ (win (normalizeWS t) 500 450 0).length = 500
    ∧ (win (normalizeWS t) 500 450 1).length = 500
    ∧ (win (normalizeWS t) 500 450 2).length = 300 :=
  chunk_1200_aux t hlen hns

/-- Counterexample to claim C2 as stated: a 1200-character normalized text of
letters a yields chunks of lengths 500, 500, 300, not 500, 500, 250. -/
theorem chunk_1200_lengths_cex :
    ((chunk_text (List.replicate 1200 'a') 500 50).getD []).map List.length = [500, 500, 300]
    ∧ [500, 500, 300] ≠ [500, 500, 250] := by
  have hmem : ∀ c ∈ List.replicate 1200 'a', isPySpace c = false := by
    intro c hc
    rw [List.eq_of_mem_replicate hc]
    decide
  have hn : normalizeWS (List.replicate 1200 'a') = List.replicate 1200 'a' :=
    normalizeWS_no_space_id _ hmem
  have hlen : (normalizeWS (List.replicate 1200 'a')).length = 1200 := by
    rw [hn, List.length_replicate]
  have hns : ∀ c ∈ normalizeWS (List.replicate 1200 'a'), isPySpace c = false := by
    rw [hn]; exact hmem
  obtain ⟨heq, hl0, hl1, hl2⟩ := chunk_1200_aux (List.replicate 1200 'a') hlen hns
  constructor
  · rw [heq, Option.getD_some, List.map_cons, List.map_cons, List.map_cons, List.map_nil,
      hl0, hl1, hl2]
  · decide

/-- Witness for chunk_1200_spec at a concrete 1200-character input. -/
theorem chunk_1200_spec_witness :
    chunk_text (List.replicate 1200 'b') 500 50 =
      some [win (normalizeWS (List.replicate 1200 'b')) 500 450 0,
            win (normalizeWS (List.replicate 1200 'b')) 500 450 1,
            win (normalizeWS (List.replicate 1200 'b')) 500 450 2]
    ∧ (win (normalizeWS (List.replicate 1200 'b')) 500 450 2).length = 300 := by
  have hmem : ∀ c ∈ List.replicate 1200 'b', isPySpace c = false := by
    intro c hc
    rw [List.eq_of_mem_replicate hc]
    decide
  have hn : normalizeWS (List.replicate 1200 'b') = List.replicate 1200 'b' :=
    normalizeWS_no_space_id _ hmem
  have h := chunk_1200_spec (List.replicate 1200 'b')
    (by rw [hn, List.length_replicate]) (by rw [hn]; exact hmem)
  exact ⟨h.1, h.2.2.2⟩

/-! Helper lemmas about the collection store. -/

lemma storeFind_cons_self (botId : Nat) (c : ChromaCollection) (st : Store) :
    storeFind ((botId, c) :: st) botId = some c := by
  rw [storeFind, if_pos rfl]

lemma storeFind_cons_other (b k : Nat) (c : ChromaCollection) (st : Store) (h : k ≠ b) :
    storeFind ((b, c) :: st) k = storeFind st k := by
  rw [storeFind, if_neg (fun hb => h hb.symm)]

lemma storeFind_delete_other (st : Store) (botId k : Nat) (h : k ≠ botId) :
    storeFind (delete_collection st botId) k = storeFind st k := by
  induction st with
  | nil => rfl
  | cons p rest ih =>
    rcases p with ⟨b, c⟩
    rw [delete_collection, List.filter_cons]
    by_cases hb : b = botId
    · rw [if_neg (by simp [hb])]
      rw [storeFind_cons_other b k c rest (by rw [hb]; exact h)]
      exact ih
    · rw [if_pos (by simp [hb])]
      by_cases hbk : b = k
      · rw [hbk, storeFind_cons_self, storeFind_cons_self]
      · rw [storeFind_cons_other b k c _ (fun hk => hbk hk.symm),
          storeFind_cons_other b k c rest (fun hk => hbk hk.symm)]
        exact ih

lemma storeFind_storeSet_self (st : Store) (botId : Nat) (c c0 : ChromaCollection)
    (h : storeFind st botId = some c0) :
    storeFind (storeSet st botId c) botId = some c := by
  induction st with
  | nil => simp [storeFind] at h
  | cons p rest ih =>
    rcases p with ⟨b, d⟩
    rw [storeSet, List.map_cons]
    by_cases hb : b = botId
    · simp only [hb, if_pos rfl]
      exact storeFind_cons_self botId c _
    · rw [if_neg (by simp [hb])]
      rw [storeFind_cons_other b botId d _ (fun hk => hb hk.symm)]
      rw [storeFind_cons_other b botId d rest (fun hk => hb hk.symm)] at h
      exact ih h

lemma storeFind_storeSet_other (st : Store) (botId k : Nat) (c : ChromaCollection)
    (h : k ≠ botId) :
    storeFind (storeSet st botId c) k = storeFind st k := by
  induction st with
  | nil => rfl
  | cons p rest ih =>
    rcases p with ⟨b, d⟩
    rw [storeSet, List.map_cons]
    by_cases hb : b = botId
    · rw [if_pos (by simp [hb])]
      rw [storeFind_cons_other botId k c _ h]
      rw [storeFind_cons_other b k d rest (by rw [hb]; exact h)]
      exact ih
    · rw [if_neg (by simp [hb])]
      by_cases hbk : b = k
      · rw [hbk, storeFind_cons_self, storeFind_cons_self]
      · rw [storeFind_cons_other b k d _ (fun hk => hbk hk.symm),
          storeFind_cons_other b k d rest (fun hk => hbk hk.symm)]
        exact ih

lemma get_safe_compat (st : Store) (botId efId : Nat) (c : ChromaCollection)
    (h : storeFind st botId = some c) (he : c.efId = efId) :
    get_safe_collection st botId (some efId) = Except.ok (st, c) := by
  simp only [get_safe_collection, get_collection, h, if_pos he]

lemma get_safe_absent (st : Store) (botId efId : Nat)
    (h : storeFind st botId = none) :
    get_safe_collection st botId (some efId)
      = Except.ok ((botId, ⟨efId, []⟩) :: st, ⟨efId, []⟩) := by
  simp only [get_safe_collection, get_collection, h, create_collection]

lemma get_safe_conflict (st : Store) (botId efId : Nat) (c : ChromaCollection)
    (h : storeFind st botId = some c) (he : c.efId ≠ efId) :
    get_safe_collection st botId (some efId)
      = Except.ok ((botId, ⟨efId, []⟩) :: delete_collection st botId, ⟨efId, []⟩) := by
  simp only [get_safe_collection, get_collection, h, if_neg he, create_collection]

/-! Claim theorems about the collection manager. -/

/-- Claim C5, confirmed: get_safe_collection maps a tenant key to exactly one
collection.  When a collection with the configured embedding function exists
it is returned and the store is untouched; when none exists an empty one is
created under the key; when one exists with an incompatible embedding function
it is deleted and an empty one is recreated under the same key; in the latter
two cases every other key is untouched. -/
theorem get_safe_collection_spec (st : Store) (botId efId : Nat) :
    (∀ c, storeFind st botId = some c → c.efId = efId →
        get_safe_collection st botId (some efId) = Except.ok (st, c))
    ∧ (storeFind st botId = none →
        get_safe_collection st botId (some efId)
          = Except.ok ((botId, ⟨efId, []⟩) :: st, ⟨efId, []⟩)
        ∧ storeFind ((botId, (⟨efId, []⟩ : ChromaCollection)) :: st) botId = some ⟨efId, []⟩
        ∧ (∀ k, k ≠ botId →
            storeFind ((botId, (⟨efId, []⟩ : ChromaCollection)) :: st) k = storeFind st k))
    ∧ (∀ c, storeFind st botId = some c → c.efId ≠ efId →
        get_safe_collection st botId (some efId)
          = Except.ok ((botId, ⟨efId, []⟩) :: delete_collection st botId, ⟨efId, []⟩)
        ∧ storeFind ((botId, (⟨efId, []⟩ : ChromaCollection)) :: delete_collection st botId) botId
            = some ⟨efId, []⟩
        ∧ (∀ k, k ≠ botId →
            storeFind ((botId, (⟨efId, []⟩ : ChromaCollection)) :: delete_collection st botId) k
              = storeFind st k)) := by
  refine ⟨fun c h he => get_safe_compat st botId efId c h he, fun h => ?_, fun c h he => ?_⟩
  · exact ⟨get_safe_absent st botId efId h, storeFind_cons_self _ _ _,
      fun k hk => storeFind_cons_other _ _ _ _ hk⟩
  · refine ⟨get_safe_conflict st botId efId c h he, storeFind_cons_self _ _ _, fun k hk => ?_⟩
    rw [storeFind_cons_other _ _ _ _ hk]
    exact storeFind_delete_other st botId k hk

/-- Witness for get_safe_collection_spec: a conflicting collection under key 7
is reset to an empty one with the configured embedding function. -/
theorem get_safe_collection_spec_witness :
    get_safe_collection [(7, (⟨1, []⟩ : ChromaCollection))] 7 (some 2)
      = Except.ok ((7, (⟨2, []⟩ : ChromaCollection))
          :: delete_collection [(7, (⟨1, []⟩ : ChromaCollection))] 7, ⟨2, []⟩)
    ∧ storeFind ((7, (⟨2, []⟩ : ChromaCollection))
          :: delete_collection [(7, (⟨1, []⟩ : ChromaCollection))] 7) 7 = some ⟨2, []⟩ := by
  have h := (get_safe_collection_spec [(7, ⟨1, []⟩)] 7 2).2.2 ⟨1, []⟩ (by rfl) (by decide)
  exact ⟨h.1, h.2.1⟩

/-! Claim theorems about document deletion. -/

/-- Claim C6, corrected.  When the bot's stored collection is compatible with
the configured embedding function, deleting a document removes exactly the
chunks whose metadata doc_id is the deleted document id, leaves every chunk of
every other document (and every other bot's collection) unchanged, and removes
the stored file.  Without the compatibility hypothesis the claim fails: the
conflict-reset path of get_safe_collection recreates the collection empty. -/
theorem delete_document_frame (db : List DocRec) (fs : List (List Char)) (st : Store)
    (botId docId efId : Nat) (col : ChromaCollection) (doc : DocRec)
    (hfind : storeFind st botId = some col)
    (hcompat : col.efId = efId)
    (hdoc : db.find? (fun d => d.id == docId && d.botId == botId) = some doc) :
    delete_document db fs st botId docId (some efId)
      = some (db.filter (fun d => d.id != docId),
              fs.filter (fun f => f != doc.filename),
              storeSet st botId ⟨col.efId, col.items.filter (fun it => it.docId != docId)⟩)
    ∧ (∀ it, it ∈ col.items.filter (fun it => it.docId != docId)
          ↔ it ∈ col.items ∧ it.docId ≠ docId)
    ∧ storeFind (storeSet st botId ⟨col.efId, col.items.filter (fun it => it.docId != docId)⟩)
        botId = some ⟨col.efId, col.items.filter (fun it => it.docId != docId)⟩
    ∧ (∀ k, k ≠ botId →
        storeFind (storeSet st botId ⟨col.efId, col.items.filter (fun it => it.docId != docId)⟩) k
          = storeFind st k)
    ∧ doc.filename ∉ fs.filter (fun f => f != doc.filename) := by
  refine ⟨?_, ?_, ?_, ?_, ?_⟩
  · rw [delete_document, hdoc]
    rw [get_safe_compat st botId efId col hfind hcompat]
    rfl
  · intro it
    constructor
    · intro hit
      obtain ⟨hmem, hne⟩ := List.mem_filter.mp hit
      exact ⟨hmem, by simpa using hne⟩
    · intro ⟨hmem, hne⟩
      exact List.mem_filter.mpr ⟨hmem, by simpa using hne⟩
  · exact storeFind_storeSet_self st botId _ col hfind
  · exact fun k hk => storeFind_storeSet_other st botId k _ hk
  · intro hmem
    have := (List.mem_filter.mp hmem).2
    simp at this

/-- Counterexample to claim C6 as stated: when the stored collection was built
with embedding function 1 but function 2 is configured, deleting document 7
resets the collection, so the chunk of the unrelated document 99 is removed
too (the resulting collection under key 5 is empty). -/
theorem delete_document_conflict_cex :
    delete_document [⟨7, 5, ['f'], ['f'], 0⟩] [['f']]
        [(5, ⟨1, [⟨5, 99, 0, ['x'], ['f']⟩]⟩)] 5 7 (some 2)
      = some ([], [], [(5, ⟨2, []⟩)])
    ∧ (⟨5, 99, 0, ['x'], ['f']⟩ : ChunkItem).docId ≠ 7
    ∧ (⟨5, 99, 0, ['x'], ['f']⟩ : ChunkItem)
        ∈ (⟨1, [⟨5, 99, 0, ['x'], ['f']⟩]⟩ : ChromaCollection).items := by
  refine ⟨by decide, by decide, by decide⟩

/-- Witness for delete_document_frame at a concrete store: deleting document 7
of bot 5 keeps the chunk of document 9 and removes the stored file. -/
theorem delete_document_frame_witness :
    delete_document [⟨7, 5, ['f'], ['g'], 0⟩] [['f']]
        [(5, ⟨1, [⟨5, 7, 0, ['p'], ['g']⟩, ⟨5, 9, 0, ['q'], ['g']⟩]⟩)] 5 7 (some 1)
      = some (([⟨7, 5, ['f'], ['g'], 0⟩] : List DocRec).filter (fun d => d.id != 7),
              ([['f']] : List (List Char)).filter (fun f => f != ['f']),
              storeSet [(5, ⟨1, [⟨5, 7, 0, ['p'], ['g']⟩, ⟨5, 9, 0, ['q'], ['g']⟩]⟩)] 5
                ⟨1, ([⟨5, 7, 0, ['p'], ['g']⟩, ⟨5, 9, 0, ['q'], ['g']⟩] : List ChunkItem).filter
                  (fun it => it.docId != 7)⟩)
    ∧ storeFind (storeSet [(5, ⟨1, [⟨5, 7, 0, ['p'], ['g']⟩, ⟨5, 9, 0, ['q'], ['g']⟩]⟩)] 5
          ⟨1, ([⟨5, 7, 0, ['p'], ['g']⟩, ⟨5, 9, 0, ['q'], ['g']⟩] : List ChunkItem).filter
            (fun it => it.docId != 7)⟩) 5
        = some ⟨1, ([⟨5, 7, 0, ['p'], ['g']⟩, ⟨5, 9, 0, ['q'], ['g']⟩] : List ChunkItem).filter
            (fun it => it.docId != 7)⟩
    ∧ (['f'] : List Char) ∉ ([['f']] : List (List Char)).filter (fun f => f != ['f']) := by
  have h := delete_document_frame [⟨7, 5, ['f'], ['g'], 0⟩] [['f']]
    [(5, ⟨1, [⟨5, 7, 0, ['p'], ['g']⟩, ⟨5, 9, 0, ['q'], ['g']⟩]⟩)] 5 7 1
    ⟨1, [⟨5, 7, 0, ['p'], ['g']⟩, ⟨5, 9, 0, ['q'], ['g']⟩]⟩ ⟨7, 5, ['f'], ['g'], 0⟩
    (by rfl) (by rfl) (by rfl)
  exact ⟨h.1, h.2.2.1, h.2.2.2.2⟩

/-! Claim theorems about retrieval and the widget chat handler. -/

lemma retrieve_events (count : Nat)
    (oracle : List Char → Nat → Except (List Char) (List (List Char)))
    (q : List Char) (k : Nat) :
    (retrieve_context count oracle q k).2 = []
    ∨ (retrieve_context count oracle q k).2 = [Ev.query (min k count)] := by
  rw [retrieve_context]
  by_cases h : count = 0
  · rw [if_pos h]
    exact Or.inl rfl
  · rw [if_neg h]
    cases oracle q (min k count)
    · exact Or.inr rfl
    · exact Or.inr rfl

/-- Claim C4, confirmed: a query against an empty collection returns the empty
context without issuing a similarity query, and a chat request whose retrieved
context is empty is answered with the fixed no-relevant-information message
with no LLM call in the trace. -/
theorem empty_context_no_llm :
    (∀ (oracle : List Char → Nat → Except (List Char) (List (List Char))) query top_k,
        retrieve_context 0 oracle query top_k = (Except.ok [], []))
    ∧ (∀ (st : Store) (emb : Option Nat) (botId : Nat) (message : List Char)
          (oracle : List Char → Nat → Except (List Char) (List (List Char)))
          (llm : List Char → List Char → Except (List Char) (List Char))
          (st1 : Store) (col : ChromaCollection),
        botId ≠ 0 →
        (stripChars message).isEmpty = false →
        get_safe_collection st botId emb = Except.ok (st1, col) →
        (retrieve_context col.items.length oracle (stripChars message) TOP_K).1
          = Except.ok [] →
        widget_chat st emb botId message oracle llm
          = (ChatOut.ok msgNoInfo,
             (retrieve_context col.items.length oracle (stripChars message) TOP_K).2, st1)
        ∧ Ev.llmCall ∉ (retrieve_context col.items.length oracle (stripChars message) TOP_K).2) := by
  constructor
  · intro oracle query top_k
    rw [retrieve_context, if_pos rfl]
  · intro st emb botId message oracle llm st1 col hbot hmsg hsafe hctx
    have hnollm :
        Ev.llmCall ∉ (retrieve_context col.items.length oracle (stripChars message) TOP_K).2 := by
      rcases retrieve_events col.items.length oracle (stripChars message) TOP_K with h | h <;>
        rw [h] <;> simp
    refine ⟨?_, hnollm⟩
    rcases hrc : retrieve_context col.items.length oracle (stripChars message) TOP_K
      with ⟨r1, evs⟩
    rw [hrc] at hctx
    simp only at hctx
    subst hctx
    simp [widget_chat, hsafe, hrc, hbot, hmsg]

/-- Witness for empty_context_no_llm: a concrete empty collection yields the
fixed message with an empty trace. -/
theorem empty_context_no_llm_witness :
    retrieve_context 0 (fun _ _ => Except.ok []) ['q'] 5 = (Except.ok [], [])
    ∧ widget_chat [(3, (⟨1, []⟩ : ChromaCollection))] (some 1) 3 ['h', 'i']
        (fun _ _ => Except.ok []) (fun _ _ => Except.ok ['a'])
      = (ChatOut.ok msgNoInfo, [], [(3, ⟨1, []⟩)])
    ∧ Ev.llmCall ∉ ([] : List Ev) := by
  have h1 := empty_context_no_llm.1 (fun _ _ => Except.ok []) ['q'] 5
  have h2 := empty_context_no_llm.2 [(3, ⟨1, []⟩)] (some 1) 3 ['h', 'i']
    (fun _ _ => Except.ok []) (fun _ _ => Except.ok ['a']) [(3, ⟨1, []⟩)] ⟨1, []⟩
    (by decide) (by decide) (by rfl) (by rfl)
  exact ⟨h1, h2.1, by simp⟩

/-- Claim C7, confirmed: against a non-empty collection of size count, the
similarity query requests exactly min(top_k, count) nearest neighbours, which
never exceeds the collection size. -/
theorem retrieve_topk_bound (count top_k : Nat)
    (oracle : List Char → Nat → Except (List Char) (List (List Char)))
    (query : List Char) (h : 0 < count) :
    (retrieve_context count oracle query top_k).2 = [Ev.query (min top_k count)]
    ∧ min top_k count ≤ count := by
  constructor
  · rw [retrieve_context, if_neg (by omega)]
    cases oracle query (min top_k count)
    · rfl
    · rfl
  · exact Nat.min_le_right _ _

/-- Witness for retrieve_topk_bound: a collection of size 3 queried with the
default top_k 5 requests 3 neighbours. -/
theorem retrieve_topk_bound_witness :
    (retrieve_context 3 (fun _ _ => Except.ok [['d']]) ['q'] 5).2 = [Ev.query (min 5 3)]
    ∧ min 5 3 ≤ 3 :=
  retrieve_topk_bound 3 5 (fun _ _ => Except.ok [['d']]) ['q'] (by decide)

/-- Claim C8, corrected.  Missing inputs (empty message after stripping, or
the falsy bot id 0) yield the 400 client error.  A 404 is produced exactly
when collection acquisition raises (for instance when the embedding model
failed to load); a bot id with no existing collection does NOT yield 404: an
empty collection is created for it and the request is answered 200 with the
no-relevant-information message.  Any retrieval or LLM failure yields a 500
whose detail is the fixed generic string, whatever the internal exception
message was. -/
theorem widget_chat_status_spec (st : Store) (emb : Option Nat) (botId : Nat)
    (message : List Char)
    (oracle : List Char → Nat → Except (List Char) (List (List Char)))
    (llm : List Char → List Char → Except (List Char) (List Char)) :
    (botId = 0 ∨ (stripChars message).isEmpty = true →
        widget_chat st emb botId message oracle llm
          = (ChatOut.httpError 400 msgProvideBoth, [], st))
    ∧ (botId ≠ 0 → (stripChars message).isEmpty = false →
        ∀ e, get_safe_collection st botId emb = Except.error e →
        widget_chat st emb botId message oracle llm
          = (ChatOut.httpError 404 msgBotNotFound, [], st))
    ∧ (botId ≠ 0 → (stripChars message).isEmpty = false →
        ∀ efId, emb = some efId → storeFind st botId = none →
        widget_chat st emb botId message oracle llm
          = (ChatOut.ok msgNoInfo, [], (botId, ⟨efId, []⟩) :: st))
    ∧ (botId ≠ 0 → (stripChars message).isEmpty = false →
        ∀ st1 col em, get_safe_collection st botId emb = Except.ok (st1, col) →
        (retrieve_context col.items.length oracle (stripChars message) TOP_K).1
          = Except.error em →
        (widget_chat st emb botId message oracle llm).1 = ChatOut.httpError 500 msgServerErr)
    ∧ (botId ≠ 0 → (stripChars message).isEmpty = false →
        ∀ st1 col context em, get_safe_collection st botId emb = Except.ok (st1, col) →
        (retrieve_context col.items.length oracle (stripChars message) TOP_K).1
          = Except.ok context →
        context.isEmpty = false → llm context (stripChars message) = Except.error em →
        (widget_chat st emb botId message oracle llm).1 = ChatOut.httpError 500 msgServerErr) := by
  refine ⟨?_, ?_, ?_, ?_, ?_⟩
  · intro h
    rcases h with h | h
    · simp [widget_chat, h]
    · simp [widget_chat, h]
  · intro hbot hmsg e hsafe
    simp [widget_chat, hbot, hmsg, hsafe]
  · intro hbot hmsg efId hemb hnone
    subst hemb
    have habs := get_safe_absent st botId efId hnone
    simp [widget_chat, hbot, hmsg, habs, retrieve_context]
  · intro hbot hmsg st1 col em hsafe hret
    rcases hrc : retrieve_context col.items.length oracle (stripChars message) TOP_K
      with ⟨r1, evs⟩
    rw [hrc] at hret
    simp only at hret
    subst hret
    simp [widget_chat, hbot, hmsg, hsafe, hrc]
  · intro hbot hmsg st1 col context em hsafe hret hne hllm
    rcases hrc : retrieve_context col.items.length oracle (stripChars message) TOP_K
      with ⟨r1, evs⟩
    rw [hrc] at hret
    simp only at hret
    subst hret
    simp [widget_chat, hbot, hmsg, hsafe, hrc, hne, hllm]

/-- Counterexample to claim C8 as stated: a chat naming bot 7, for which no
collection exists, is not answered 404; an empty collection is created and the
request succeeds (200) with the no-relevant-information message. -/
theorem widget_unknown_tenant_cex :
    widget_chat [] (some 1) 7 ['h', 'i'] (fun _ _ => Except.ok [])
        (fun _ _ => Except.ok ['a'])
      = (ChatOut.ok msgNoInfo, [], [(7, ⟨1, []⟩)]) := by
  decide

/-- Witness for widget_chat_status_spec: a 400 on the falsy bot id, a 404 when
the embedding model is unavailable, and a generic 500 on a failing similarity
query. -/
theorem widget_chat_status_spec_witness :
    widget_chat [] (some 1) 0 ['h'] (fun _ _ => Except.ok [])
        (fun _ _ => Except.ok ['a'])
      = (ChatOut.httpError 400 msgProvideBoth, [], [])
    ∧ widget_chat [] none 7 ['h'] (fun _ _ => Except.ok [])
        (fun _ _ => Except.ok ['a'])
      = (ChatOut.httpError 404 msgBotNotFound, [], [])
    ∧ (widget_chat [(7, (⟨1, [⟨7, 1, 0, ['x'], ['s']⟩]⟩ : ChromaCollection))] (some 1) 7 ['h']
        (fun _ _ => Except.error ['e']) (fun _ _ => Except.ok ['a'])).1
      = ChatOut.httpError 500 msgServerErr := by
  refine ⟨?_, ?_, ?_⟩
  · exact (widget_chat_status_spec [] (some 1) 0 ['h'] (fun _ _ => Except.ok [])
      (fun _ _ => Except.ok ['a'])).1 (Or.inl rfl)
  · exact (widget_chat_status_spec [] none 7 ['h'] (fun _ _ => Except.ok [])
      (fun _ _ => Except.ok ['a'])).2.1 (by decide) (by decide) msgEmbedFail (by rfl)
  · exact (widget_chat_status_spec [(7, ⟨1, [⟨7, 1, 0, ['x'], ['s']⟩]⟩)] (some 1) 7 ['h']
      (fun _ _ => Except.error ['e']) (fun _ _ => Except.ok ['a'])).2.2.2.1 (by decide) (by decide)
      [(7, ⟨1, [⟨7, 1, 0, ['x'], ['s']⟩]⟩)] ⟨1, [⟨7, 1, 0, ['x'], ['s']⟩]⟩ ['e']
      (by rfl) (by rfl)

/-! Claim theorems about the upload handler. -/

lemma chunk_text_default_some (t : List Char) :
    chunk_text t CHUNK_SIZE CHUNK_OVERLAP = some (chunk_textD t) := by
  have h := chunk_text_eq t CHUNK_SIZE CHUNK_OVERLAP (by decide)
  rw [chunk_textD, h]
  rfl

lemma chunk_text_600 :
    chunk_text (List.replicate 600 'a') 500 50
      = some [List.replicate 500 'a', List.replicate 150 'a'] := by
  have hmem : ∀ c ∈ List.replicate 600 'a', isPySpace c = false := by
    intro c hc
    rw [List.eq_of_mem_replicate hc]
    decide
  have hn : normalizeWS (List.replicate 600 'a') = List.replicate 600 'a' :=
    normalizeWS_no_space_id _ hmem
  rw [chunk_text_eq _ 500 50 (by norm_num)]
  have hstep : (500 : Nat) - 50 = 450 := by norm_num
  rw [hstep, hn, List.length_replicate]
  have hcs : ceilSteps 600 450 = 2 := by norm_num [ceilSteps]
  rw [hcs]
  have hr : List.range 2 = [0, 1] := rfl
  rw [hr]
  have hw0 : win (List.replicate 600 'a') 500 450 0 = List.replicate 500 'a' := by
    rw [win, Nat.zero_mul, List.drop_zero, List.take_replicate]
    norm_num
  have hw1 : win (List.replicate 600 'a') 500 450 1 = List.replicate 150 'a' := by
    rw [win, Nat.one_mul, List.drop_replicate, List.take_replicate]
    norm_num
  simp only [List.filterMap_cons, List.filterMap_nil,
    emitWin_no_space (List.replicate 600 'a') 500 450 0 hmem
      (by rw [win_length, List.length_replicate]; omega),
    emitWin_no_space (List.replicate 600 'a') 500 450 1 hmem
      (by rw [win_length, List.length_replicate]; omega),
    hw0, hw1]

lemma chunk_textD_600 :
    chunk_textD (List.replicate 600 'a')
      = [List.replicate 500 'a', List.replicate 150 'a'] := by
  rw [chunk_textD, show CHUNK_SIZE = 500 from rfl, show CHUNK_OVERLAP = 50 from rfl,
    chunk_text_600]
  rfl

lemma upload_success_eq (db : List DocRec) (st : Store) (botId : Nat)
    (origName text : List Char) (emb : Option Nat) (newDocId : Nat) (uuidHex : List Char)
    (h1 : origName.isEmpty = false) (h2 : allowed_file origName = true)
    (st1 : Store) (hidx : index_pdf st botId newDocId origName text emb = Except.ok st1) :
    upload_bot_pdf db st true botId origName text emb newDocId uuidHex
      = (UploadOut.redirect botId,
         db ++ [⟨newDocId, botId, storedName uuidHex origName, origName, 0⟩], st1) := by
  rw [upload_bot_pdf]
  rw [if_neg (by simp)]
  rw [if_neg (by rw [h1]; simp)]
  rw [if_neg (by rw [h2]; simp)]
  rw [hidx]

/-- Claim C9, corrected.  The upload handler's rejections are raised as 400
HTTPExceptions but its blanket except clause rewraps them (and the 404) into a
500 whose detail stringifies the original exception; db and chroma state are
untouched by a rejection, so no document record or chunks are created.  A
successful upload returns the 303 redirect to the bot page, not the chunk
count; the committed document row keeps chunk_count 0. -/
theorem upload_spec (db : List DocRec) (st : Store) (botId : Nat)
    (origName text : List Char) (emb : Option Nat) (newDocId : Nat) (uuidHex : List Char) :
    (origName.isEmpty = true →
        upload_bot_pdf db st true botId origName text emb newDocId uuidHex
          = (UploadOut.httpError 500 (strHTTPExc 400 msgNoFile), db, st))
    ∧ (origName.isEmpty = false → allowed_file origName = false →
        upload_bot_pdf db st true botId origName text emb newDocId uuidHex
          = (UploadOut.httpError 500 (strHTTPExc 400 msgInvalidType), db, st))
    ∧ (origName.isEmpty = false → allowed_file origName = true →
        ∀ st1, index_pdf st botId newDocId origName text emb = Except.ok st1 →
        upload_bot_pdf db st true botId origName text emb newDocId uuidHex
          = (UploadOut.redirect botId,
             db ++ [⟨newDocId, botId, storedName uuidHex origName, origName, 0⟩], st1)) := by
  refine ⟨?_, ?_, ?_⟩
  · intro h
    simp [upload_bot_pdf, h]
  · intro h1 h2
    simp [upload_bot_pdf, h1, h2]
  · intro h1 h2 st1 hidx
    exact upload_success_eq db st botId origName text emb newDocId uuidHex h1 h2 st1 hidx

/-- Counterexample to claim C9 as stated: a successful upload of a 600
character text (2 chunks) returns the redirect, the stored document row has
chunk_count 0, and the collection holds 2 chunks; the chunk count is never
returned. -/
theorem upload_no_chunk_count_cex :
    (upload_bot_pdf [] [] true 5 ['a', '.', 'p', 'd', 'f'] (List.replicate 600 'a')
        (some 1) 1 ['u']).1 = UploadOut.redirect 5
    ∧ ((upload_bot_pdf [] [] true 5 ['a', '.', 'p', 'd', 'f'] (List.replicate 600 'a')
        (some 1) 1 ['u']).2.1.map DocRec.chunkCount) = [0]
    ∧ ((storeFind (upload_bot_pdf [] [] true 5 ['a', '.', 'p', 'd', 'f']
        (List.replicate 600 'a') (some 1) 1 ['u']).2.2 5).map (fun c => c.items.length))
      = some 2
    ∧ (0 : Nat) ≠ 2 := by
  have habs := get_safe_absent [] 5 1 rfl
  have hall : allowed_file ['a', '.', 'p', 'd', 'f'] = true := by decide
  have hidx : index_pdf [] 5 1 ['a', '.', 'p', 'd', 'f'] (List.replicate 600 'a') (some 1)
      = Except.ok [(5, ⟨1, [⟨5, 1, 0, List.replicate 500 'a', ['a', '.', 'p', 'd', 'f']⟩,
                            ⟨5, 1, 1, List.replicate 150 'a', ['a', '.', 'p', 'd', 'f']⟩]⟩)] := by
    simp only [index_pdf, habs, chunk_textD_600]
    rfl
  have hup := upload_success_eq [] [] 5 ['a', '.', 'p', 'd', 'f'] (List.replicate 600 'a')
    (some 1) 1 ['u'] (by decide) hall _ hidx
  refine ⟨?_, ?_, ?_, by decide⟩
  · rw [hup]
  · rw [hup]
    rfl
  · rw [hup]
    rfl

/-- Witness for upload_spec: a rejected non-pdf filename surfaces as the
rewrapped 500 with nothing persisted, and a small successful upload redirects
with chunk_count 0 on the stored row. -/
theorem upload_spec_witness :
    upload_bot_pdf [] [] true 5 ['x'] ['t'] (some 1) 1 ['u']
      = (UploadOut.httpError 500 (strHTTPExc 400 msgInvalidType), [], [])
    ∧ upload_bot_pdf [] [] true 5 ['a', '.', 'p', 'd', 'f'] ['t'] (some 1) 1 ['u']
      = (UploadOut.redirect 5,
         [⟨1, 5, storedName ['u'] ['a', '.', 'p', 'd', 'f'], ['a', '.', 'p', 'd', 'f'], 0⟩],
         [(5, ⟨1, [⟨5, 1, 0, ['t'], ['a', '.', 'p', 'd', 'f']⟩]⟩)]) := by
  constructor
  · exact (upload_spec [] [] 5 ['x'] ['t'] (some 1) 1 ['u']).2.1 (by decide) (by decide)
  · exact (upload_spec [] [] 5 ['a', '.', 'p', 'd', 'f'] ['t'] (some 1) 1 ['u']).2.2
      (by decide) (by decide)
      [(5, ⟨1, [⟨5, 1, 0, ['t'], ['a', '.', 'p', 'd', 'f']⟩]⟩)] (by rfl)
